import Mathlib

/-!
Verification development for the sorta repository: a metadata-driven file
organization engine written in TypeScript. The repository contains several
organizer variants:

* an image organizer together with a metadata-generation pass
  (src/src/app/pages/api/create-metadata.ts),
* a hash-aware video organizer (src/unnamed/part_000),
* a video organizer without hashing (src/src/app/pages/api/sorta-vids.ts),
* an interactive by-extension organizer with a conflict resolver
  (src/src/app/pages/api/sorta.ts),
* a metadata-generation pass without hashing (src/unnamed/part_001).

The definitions below are a shallow embedding of these programs.  The
filesystem is modelled as the list of existing paths; file sizes, file
timestamps and content hashes are supplied by oracle functions; a failure
oracle says which per-file transfer operations throw.  JavaScript strings
are Lean strings, and the few standard-library string operations the code
uses (startsWith, toLowerCase, padStart, template interpolation of numbers,
path.join, path.extname, path.basename, path.dirname) are re-implemented
structurally on the underlying character lists so that every definition
evaluates inside the kernel.
-/

namespace Sorta

/-- Test of name.startsWith applied with the hidden-file marker, the dot. -/
def hiddenName (s : String) : Bool :=
  match s.data with
  | [] => false
  | c :: _ => c == '.'

/-- path.join for the simple two-segment uses appearing in the code. -/
def joinP (a b : String) : String := a ++ "/" ++ b

/-- String.prototype.toLowerCase. -/
def strLower (s : String) : String := String.mk (s.data.map Char.toLower)

/-- The part of a path after the final slash. -/
def lastComponent (p : String) : String :=
  String.mk ((p.data.reverse.takeWhile (fun c => c != '/')).reverse)

/-- path.extname: the extension of the final path component, dot included;
empty when the component has no dot or only starts with one. -/
def extname (p : String) : String :=
  let base := (lastComponent p).data
  let preRev := base.reverse.takeWhile (fun c => c != '.')
  if preRev.length + 1 < base.length then String.mk ('.' :: preRev.reverse) else ""

/-- Does the first list begin with the second list. -/
def listBegins : List Char → List Char → Bool
  | _, [] => true
  | [], _ :: _ => false
  | a :: as, b :: bs => a == b && listBegins as bs

/-- Does the string s end with the string t. -/
def strEnds (s t : String) : Bool := listBegins s.data.reverse t.data.reverse

/-- path.basename with an extension argument: the final path component with
the extension stripped when it is a proper suffix. -/
def basenameStrip (p ext : String) : String :=
  let base := lastComponent p
  if strEnds base ext && base != ext then
    String.mk (base.data.take (base.data.length - ext.data.length))
  else base

/-- String.prototype.replace of the first dot by the empty string, as used
on extensions of the shape dot-plus-letters. -/
def dropFirstDot : List Char → List Char
  | [] => []
  | c :: cs => if c == '.' then cs else c :: dropFirstDot cs

/-- An extension without its leading dot. -/
def extNoDot (ext : String) : String := String.mk (dropFirstDot ext.data)

/-- path.dirname, for paths that contain a directory part. -/
def dirname (p : String) : String :=
  match p.data.reverse.dropWhile (fun c => c != '/') with
  | [] => "."
  | _ :: tail => String.mk tail.reverse

/-- Decimal digits of a natural number, most significant first.  The first
argument is recursion fuel; the caller passes the number itself, which
always suffices because the value shrinks by a factor of ten each step. -/
def decimalCharsAux : Nat → Nat → List Char
  | 0, n => [Nat.digitChar (n % 10)]
  | fuel + 1, n =>
      if n < 10 then [Nat.digitChar n]
      else decimalCharsAux fuel (n / 10) ++ [Nat.digitChar (n % 10)]

/-- Decimal rendering of a natural number, as JavaScript template
interpolation of a non-negative integer produces. -/
def decimalStr (n : Nat) : String := String.mk (decimalCharsAux n n)

/-- Reads a decimal digit list back as a number. -/
def parseNatChars (cs : List Char) : Nat :=
  cs.foldl (fun a c => 10 * a + (c.toNat - 48)) 0

/-- Reads the decimal digits of a string as a number. -/
def parseNatStr (s : String) : Nat := parseNatChars s.data

/-- The first n characters of a string. -/
def strTake (s : String) (n : Nat) : String := String.mk (s.data.take n)

/-- The string without its first n characters. -/
def strDrop (s : String) (n : Nat) : String := String.mk (s.data.drop n)

/-- String.prototype.padStart with width two and the zero digit. -/
def padStart2 (s : String) : String :=
  if s.length = 0 then "00" else if s.length = 1 then "0" ++ s else s

/-- formatTimestamp of the image organizer in create-metadata.ts, whose body
is character for character also the formatTimestamp of sorta-vids.ts: build
a date object from the ISO instant and print year, one-based month and day
as year-month-day with the two number fields padded to two digits.  Date
accessors are modelled at UTC, reading the fields directly off the ISO
string; the source adds one to the zero-based getMonth result, which equals
the one-based month digits parsed here. -/
def formatTimestampImages (ts : String) : String :=
  let year := parseNatStr (strTake ts 4)
  let month := parseNatStr (strTake (strDrop ts 5) 2)
  let day := parseNatStr (strTake (strDrop ts 8) 2)
  decimalStr year ++ "-" ++ padStart2 (decimalStr month) ++ "-" ++ padStart2 (decimalStr day)

/-- The fixed epoch instant that certain filesystems report when the true
birth time of a file is unavailable. -/
def sentinelTimestamp : String := "1980-01-01T05:00:00.000Z"

/-- formatTimestamp of the hash-aware video organizer in part_000: the
sentinel instant is replaced by the current processing date, supplied here
as the today argument; otherwise the body equals the formatTimestamp of the
other organizers. -/
def formatTimestampVideos (today ts : String) : String :=
  if ts == sentinelTimestamp then today else formatTimestampImages ts

/-- One metadata record, the FileMetadata interface of the organizers.  The
image organizer and sorta-vids.ts declare the interface without the hash
field; the field is simply unused by them. -/
structure FileMetadata where
  filename : String
  path : String
  timestamp : String
  copied : Bool
  hash : String
deriving Repr, DecidableEq

/-- fileMetadataMap lookup.  The map is built by a reduce in which a later
array entry overwrites an earlier one with the same path, so the lookup
returns the last matching record. -/
def lookupRecord (rs : List FileMetadata) (p : String) : Option FileMetadata :=
  rs.reverse.find? (fun r => r.path == p)

/-- Replaces the first list element satisfying the test. -/
def updateFirstRecord (t : FileMetadata → Bool) (g : FileMetadata → FileMetadata) :
    List FileMetadata → List FileMetadata
  | [] => []
  | r :: rs => if t r then g r :: rs else r :: updateFirstRecord t g rs

/-- In-place mutation of the record the map points to for a path: the last
array entry with that path. -/
def updateLastRecord (rs : List FileMetadata) (p : String)
    (g : FileMetadata → FileMetadata) : List FileMetadata :=
  (updateFirstRecord (fun r => r.path == p) g rs.reverse).reverse

/-- The mutable state of one organizer run: the metadata array, the set of
existing filesystem paths, the set of hashes of already copied files, the
duplicate and space counters, the processed counter, and the list of
destination paths written by this run, in order. -/
structure OrgState where
  records : List FileMetadata
  fsys : List String
  copiedHashes : List String
  duplicateCount : Nat
  spaceSaved : Nat
  processedFiles : Nat
  moved : List String
deriving Repr, DecidableEq

/-- The image extension set of create-metadata.ts. -/
def imageExtensions : List String :=
  [".jpg", ".jpeg", ".png", ".gif", ".bmp", ".tiff", ".tif", ".webp",
   ".ico", ".heic", ".heif", ".raw", ".cr2", ".nef", ".orf", ".arw",
   ".sr2", ".dng", ".raf", ".rw2", ".pef", ".svg", ".img", ".psd", ".xcf", ".pcx", ".jp2"]

/-- The video extension set of part_000 and sorta-vids.ts. -/
def videoExtensions : List String :=
  [".mp4", ".m4v", ".mov", ".avi", ".wmv", ".flv", ".mkv", ".webm",
   ".mpg", ".mpeg", ".hevc", ".h265", ".rm", ".rmvb", ".3gp", ".asf",
   ".vob", ".dat", ".swf", ".ts", ".m2ts", ".f4v", ".mxf", ".ogv",
   ".yuv", ".mjpg", ".mjpeg", ".divx", ".xvid", ".amv", ".vid", ".scm"]

/-- The while loop shared by the suffix-searching conflict resolutions: test
candidate number i, and while the candidate is taken move to the next one.
The fuel argument bounds the number of tests; the callers pass enough fuel
for the search to always succeed, which is proved below. -/
def findFree (taken : String → Bool) (cand : Nat → String) : Nat → Nat → Option Nat
  | 0, _ => none
  | fuel + 1, i => if taken (cand i) then findFree taken cand fuel (i + 1) else some i

/-- Runs findFree with fuel one larger than the number of existing paths,
which always suffices for an injective candidate sequence. -/
def suffixSearch (fs : List String) (cand : Nat → String) : Nat :=
  match findFree (fun s => fs.contains s) cand (fs.length + 1) 0 with
  | some n => n
  | none => fs.length + 1

/-- Destination file names tried by the image organizer: first
timestamp-underscore-basename-extension, then with underscore-k inserted
before the extension for k = 1, 2, and so on. -/
def imageCandName (fts baseName ext : String) : Nat → String
  | 0 => fts ++ "_" ++ baseName ++ ext
  | k + 1 => fts ++ "_" ++ baseName ++ "_" ++ decimalStr (k + 1) ++ ext

/-- Destination paths tried by the image organizer. -/
def imageCand (typeDir fts baseName ext : String) (n : Nat) : String :=
  joinP typeDir (imageCandName fts baseName ext n)

/-- The category directory of the image organizer: destination root, then
the literal segment image, then the lowercased extension without its dot. -/
def imageTypeDir (destDir filePath : String) : String :=
  joinP (joinP destDir "image") (extNoDot (strLower (extname filePath)))

/-- processFile of the image organizer in create-metadata.ts, success path:
skip non-image extensions, skip files without metadata, skip records already
marked copied; otherwise create the category directory, compute the dated
destination name, bump the numeric suffix while the destination exists, copy
the file, and mark the record copied with the new file name. -/
def processFileImageOk (destDir : String) (st : OrgState) (filePath : String) : OrgState :=
  let ext := strLower (extname filePath)
  if !(imageExtensions.contains ext) then st else
  match lookupRecord st.records filePath with
  | none => st
  | some metadata =>
    if metadata.copied then st else
    let typeDir := imageTypeDir destDir filePath
    let fs1 := List.insert typeDir st.fsys
    let fts := formatTimestampImages metadata.timestamp
    let baseName := basenameStrip filePath ext
    let n := suffixSearch fs1 (imageCand typeDir fts baseName ext)
    let destFileName := imageCandName fts baseName ext n
    let destPath := imageCand typeDir fts baseName ext n
    { st with
      fsys := List.insert destPath fs1,
      records := updateLastRecord st.records filePath
        (fun r => { r with copied := true, filename := destFileName }),
      processedFiles := st.processedFiles + 1,
      moved := st.moved ++ [destPath] }

/-- processFile of the image organizer with its failure behavior: the copy
is not wrapped in any try-catch, so a copy error propagates as an exception
out of processFile.  The fail oracle says for which source paths the copy
throws. -/
def processFileImage (fail : String → Bool) (destDir : String) (st : OrgState)
    (filePath : String) : Except Unit OrgState :=
  let ext := strLower (extname filePath)
  if !(imageExtensions.contains ext) then Except.ok st else
  match lookupRecord st.records filePath with
  | none => Except.ok st
  | some metadata =>
    if metadata.copied then Except.ok st else
    let typeDir := imageTypeDir destDir filePath
    let fs1 := List.insert typeDir st.fsys
    let fts := formatTimestampImages metadata.timestamp
    let baseName := basenameStrip filePath ext
    let n := suffixSearch fs1 (imageCand typeDir fts baseName ext)
    let destFileName := imageCandName fts baseName ext n
    let destPath := imageCand typeDir fts baseName ext n
    if fail filePath then Except.error () else
    Except.ok { st with
      fsys := List.insert destPath fs1,
      records := updateLastRecord st.records filePath
        (fun r => { r with copied := true, filename := destFileName }),
      processedFiles := st.processedFiles + 1,
      moved := st.moved ++ [destPath] }

/-- The for-loop of the image organizer over the collected files, success
path. -/
def runImageOk (destDir : String) (st : OrgState) (files : List String) : OrgState :=
  files.foldl (processFileImageOk destDir) st

/-- The for-loop of the image organizer over the collected files.  Each
iteration awaits processFile, and an exception leaves the loop at once and
propagates out of organizeFilesByType, which has no handler: the batch is
aborted and the final metadata write never happens. -/
def runImage (fail : String → Bool) (destDir : String) (st : OrgState)
    (files : List String) : Except Unit OrgState :=
  files.foldlM (processFileImage fail destDir) st

/-- The category directory of the video organizers: destination root, the
literal segment videos, then the lowercased extension without its dot. -/
def videoTypeDir (destDir filePath : String) : String :=
  joinP (joinP destDir "videos") (extNoDot (strLower (extname filePath)))

/-- processFile of the hash-aware video organizer in part_000: skip files
without metadata; when the content hash of the record is already among the
copied hashes, count a duplicate and add the file size to the space-saved
total, touching nothing else; otherwise create the category directory,
compute the dated destination name, fall back once to an underscore-copy
name when the destination exists, and rename the file into place.  The
rename and the conflict check sit in a try-catch: when the rename throws -
the fail oracle - the error is logged and the state is otherwise left as it
was, the record in particular unchanged, and the caller continues with the
next file. -/
def processFileVideo (fail : String → Bool) (size : String → Nat)
    (today destDir : String) (st : OrgState) (filePath : String) : OrgState :=
  let ext := strLower (extname filePath)
  match lookupRecord st.records filePath with
  | none => st
  | some metadata =>
    if st.copiedHashes.contains metadata.hash then
      { st with
        duplicateCount := st.duplicateCount + 1,
        spaceSaved := st.spaceSaved + size filePath }
    else
      let typeDir := videoTypeDir destDir filePath
      let fs1 := List.insert typeDir st.fsys
      let fts := formatTimestampVideos today metadata.timestamp
      let baseName := basenameStrip filePath ext
      let destFileName0 := fts ++ "_" ++ baseName ++ ext
      let destFileName :=
        if fs1.contains (joinP typeDir destFileName0) then
          fts ++ "_" ++ baseName ++ "_copy" ++ ext
        else destFileName0
      let destPath := joinP typeDir destFileName
      if fail filePath then { st with fsys := fs1 }
      else { st with
        fsys := List.insert destPath (fs1.erase filePath),
        records := updateLastRecord st.records filePath (fun r => { r with copied := true }),
        copiedHashes := List.insert metadata.hash st.copiedHashes,
        processedFiles := st.processedFiles + 1,
        moved := st.moved ++ [destPath] }

/-- The relevant-file filter of part_000: keep video extensions only. -/
def videoRelevant (f : String) : Bool := videoExtensions.contains (strLower (extname f))

/-- The processing loop of part_000 over the collected files: filter to
video extensions, then process the files.  The source dispatches the tasks
through a ten-wide pool under Promise.all; this fold is the fully serialized
schedule, one realizable schedule among those of runSchedule, in which each
task completes before the next starts.  Properties proved over it hold of
that schedule only unless they are schedule-independent. -/
def runVideoBatch (fail : String → Bool) (size : String → Nat) (today destDir : String)
    (st : OrgState) (files : List String) : OrgState :=
  (files.filter videoRelevant).foldl (processFileVideo fail size today destDir) st

/-- The start-of-run state of part_000: the metadata array as loaded, the
copied-hash set populated from the records already marked copied, counters
at zero. -/
def initVideoState (records : List FileMetadata) (fsys : List String) : OrgState :=
  { records := records,
    fsys := fsys,
    copiedHashes := (records.filter (fun r => r.copied)).map (fun r => r.hash),
    duplicateCount := 0,
    spaceSaved := 0,
    processedFiles := 0,
    moved := [] }

/-- The suspension points of one in-flight processFile task of part_000.
Each task runs synchronously from its start through the metadata lookup and
the duplicate check of line 145, then suspends at its first await: in the
duplicate branch at the stat call before the counter updates, in the
transfer branch at the directory check before the conflict test, the rename
and the shared-state updates of lines 176 to 178. -/
inductive VTask where
  | start : String → VTask
  | dupStat : String → VTask
  | transfer : String → FileMetadata → VTask
deriving Repr, DecidableEq

/-- One resumption of a processFile task of part_000: runs from the current
suspension point to the next one or to completion.  The synchronous opening
section reads copiedHashes at once; the transfer section, resumed later,
performs the conflict test against the filesystem as it then stands and only
then inserts the hash - so the duplicate check of one task and the hash
insertion of another can be separated by the scheduler, exactly as in the
source.  The metadata value captured at the lookup is carried into the
transfer section; the fields it reads there are never mutated for a
distinct-path record.  The awaits inside the transfer section are collapsed
into one resumption, which loses no behavior relevant to the shared
copiedHashes set: that section touches the set only at its end. -/
def stepTask (fail : String → Bool) (size : String → Nat) (today destDir : String)
    (st : OrgState) : VTask → OrgState × Option VTask
  | VTask.start f =>
      match lookupRecord st.records f with
      | none => (st, none)
      | some metadata =>
          if st.copiedHashes.contains metadata.hash then (st, some (VTask.dupStat f))
          else (st, some (VTask.transfer f metadata))
  | VTask.dupStat f =>
      ({ st with
          duplicateCount := st.duplicateCount + 1,
          spaceSaved := st.spaceSaved + size f }, none)
  | VTask.transfer f metadata =>
      let ext := strLower (extname f)
      let typeDir := videoTypeDir destDir f
      let fs1 := List.insert typeDir st.fsys
      let fts := formatTimestampVideos today metadata.timestamp
      let baseName := basenameStrip f ext
      let destFileName0 := fts ++ "_" ++ baseName ++ ext
      let destFileName :=
        if fs1.contains (joinP typeDir destFileName0) then
          fts ++ "_" ++ baseName ++ "_copy" ++ ext
        else destFileName0
      let destPath := joinP typeDir destFileName
      if fail f then ({ st with fsys := fs1 }, none)
      else ({ st with
        fsys := List.insert destPath (fs1.erase f),
        records := updateLastRecord st.records f (fun r => { r with copied := true }),
        copiedHashes := List.insert metadata.hash st.copiedHashes,
        processedFiles := st.processedFiles + 1,
        moved := st.moved ++ [destPath] }, none)

/-- Resumes the in-flight task with the given index once; a finished or
out-of-range index changes nothing. -/
def stepIndexed (fail : String → Bool) (size : String → Nat) (today destDir : String)
    (s : OrgState × List (Option VTask)) (i : Nat) : OrgState × List (Option VTask) :=
  match s.2.get? i with
  | some (some t) =>
      match stepTask fail size today destDir s.1 t with
      | (st2, t2) => (st2, s.2.set i t2)
  | _ => s

/-- Interleaved execution of the concurrent batch of part_000: Promise.all
over pLimit tasks means every task is pending at once and the event loop
interleaves their synchronous sections at the suspension points.  The
schedule argument names, step by step, which in-flight task resumes. -/
def runSchedule (fail : String → Bool) (size : String → Nat) (today destDir : String)
    (st : OrgState) (files : List String) (sched : List Nat) :
    OrgState × List (Option VTask) :=
  sched.foldl (stepIndexed fail size today destDir)
    (st, files.map (fun f => some (VTask.start f)))

/-- One task resumed to completion with no other task interleaved. -/
def runOne (fail : String → Bool) (size : String → Nat) (today destDir : String)
    (st : OrgState) (f : String) : OrgState :=
  match stepTask fail size today destDir st (VTask.start f) with
  | (st1, none) => st1
  | (st1, some t) => (stepTask fail size today destDir st1 t).1

/-- Destination paths tried by getUniqueDestPath in sorta.ts: the original
destination first, then basename-parenthesized-k-extension inside the
directory of the original destination for k = 1, 2, and so on. -/
def uniqueCand (destPath baseName ext : String) : Nat → String
  | 0 => destPath
  | k + 1 => joinP (dirname destPath) (baseName ++ "(" ++ decimalStr (k + 1) ++ ")" ++ ext)

/-- getUniqueDestPath of sorta.ts: while the candidate exists, move to the
next numeric suffix; the fuel passed to the search always suffices, which is
proved below, so the fallback arm is never taken. -/
def getUniqueDestPath (fsys : List String) (destPath baseName ext : String) : String :=
  match findFree (fun s => fsys.contains s) (uniqueCand destPath baseName ext)
      (fsys.length + 2) 0 with
  | some n => uniqueCand destPath baseName ext n
  | none => uniqueCand destPath baseName ext (fsys.length + 2)

/-- The three user answers of the conflict resolver in sorta.ts. -/
inductive DupAction where
  | skip
  | replace
  | addSuffix
deriving Repr, DecidableEq

/-- handleDuplicateAction of sorta.ts: skip returns nothing, replace keeps
the existing destination path, addSuffix searches for a unique path. -/
def handleDuplicateAction (fsys : List String) (action : DupAction)
    (destPath baseName ext : String) : Option String :=
  match action with
  | DupAction.skip => none
  | DupAction.replace => some destPath
  | DupAction.addSuffix => some (getUniqueDestPath fsys destPath baseName ext)

/-- A source directory tree: named files and named directories with
entries. -/
inductive FsEntry where
  | file : String → FsEntry
  | dir : String → List FsEntry → FsEntry
deriving Repr

/-- collectFiles of part_000, create-metadata.ts and sorta-vids.ts: walk the
entries of the current directory in order; an entry whose name starts with
the hidden marker is skipped entirely; a directory is descended into and its
collected files are appended; a file is appended as its joined path. -/
def collectFilesHidden (currentDir : String) : List FsEntry → List String
  | [] => []
  | FsEntry.file n :: rest =>
      (if hiddenName n then [] else [joinP currentDir n]) ++
        collectFilesHidden currentDir rest
  | FsEntry.dir n cs :: rest =>
      (if hiddenName n then [] else collectFilesHidden (joinP currentDir n) cs) ++
        collectFilesHidden currentDir rest

/-- collectFiles of sorta.ts, which has no hidden-name check: every file is
collected and every directory is descended into. -/
def collectFilesSorta (currentDir : String) : List FsEntry → List String
  | [] => []
  | FsEntry.file n :: rest =>
      [joinP currentDir n] ++ collectFilesSorta currentDir rest
  | FsEntry.dir n cs :: rest =>
      collectFilesSorta (joinP currentDir n) cs ++ collectFilesSorta currentDir rest

/-- The name chains, root-first, of the files of a tree that are reachable
without passing through any hidden-named entry. -/
def visibleFiles : List FsEntry → List (List String)
  | [] => []
  | FsEntry.file n :: rest =>
      (if hiddenName n then [] else [[n]]) ++ visibleFiles rest
  | FsEntry.dir n cs :: rest =>
      (if hiddenName n then [] else (visibleFiles cs).map (fun ns => n :: ns)) ++
        visibleFiles rest

/-- Joins a chain of entry names onto a root path. -/
def joinChain (root : String) (ns : List String) : String := ns.foldl joinP root

/-- One record produced by the metadata-generation pass of
create-metadata.ts: source name and path, the ISO timestamp, the copied flag
at false, and the content hash or nothing when hashing failed. -/
structure ScanRecord where
  filename : String
  path : String
  timestamp : String
  copied : Bool
  hash : Option String
deriving Repr, DecidableEq

/-- scanDirectory of the metadata-generation pass in create-metadata.ts:
walk the tree, skip hidden-named entries, and for every file record its
name, path, timestamp from the stat oracle, the copied flag at false, and
the hash from the hashing oracle. -/
def getFileMetadata (stamp : String → String) (hashFn : String → Option String)
    (currentDir : String) : List FsEntry → List ScanRecord
  | [] => []
  | FsEntry.file n :: rest =>
      (if hiddenName n then []
       else [{ filename := n,
               path := joinP currentDir n,
               timestamp := stamp (joinP currentDir n),
               copied := false,
               hash := hashFn (joinP currentDir n) }]) ++
        getFileMetadata stamp hashFn currentDir rest
  | FsEntry.dir n cs :: rest =>
      (if hiddenName n then [] else getFileMetadata stamp hashFn (joinP currentDir n) cs) ++
        getFileMetadata stamp hashFn currentDir rest

/-- The whole metadata-generation pass: the scan starts from an empty files
collection and its result is written over the output document, so the
previous document content - the first argument - never enters the result. -/
def runMetadataPass (oldDoc : List ScanRecord) (stamp : String → String)
    (hashFn : String → Option String) (root : String) (es : List FsEntry) :
    List ScanRecord :=
  getFileMetadata stamp hashFn root es

/-- A file the image organizer will actually transfer: image extension,
metadata present, record not yet copied. -/
def transferableB (st : OrgState) (f : String) : Bool :=
  imageExtensions.contains (strLower (extname f)) &&
    (match lookupRecord st.records f with
     | some r => !r.copied
     | none => false)

/-- The destination file name the image organizer picks for a file, read off
the state: the first suffix candidate that does not exist. -/
def imagePickName (d : String) (st : OrgState) (f : String) (r : FileMetadata) : String :=
  let ext := strLower (extname f)
  let typeDir := imageTypeDir d f
  let fs1 := List.insert typeDir st.fsys
  let fts := formatTimestampImages r.timestamp
  let baseName := basenameStrip f ext
  imageCandName fts baseName ext (suffixSearch fs1 (imageCand typeDir fts baseName ext))

/-- The destination path the image organizer picks for a file. -/
def imagePick (d : String) (st : OrgState) (f : String) (r : FileMetadata) : String :=
  joinP (imageTypeDir d f) (imagePickName d st f r)

/-! Concrete inputs used by the closed instances below. -/

/-- A record already marked copied. -/
def wit1Rec : FileMetadata :=
  { filename := "x.jpg", path := "p/x.jpg", timestamp := "2022-03-01T12:00:00.000Z",
    copied := true, hash := "h1" }

/-- An image-organizer state holding one already-copied record. -/
def wit1St : OrgState :=
  { records := [wit1Rec], fsys := [], copiedHashes := ["h1"],
    duplicateCount := 0, spaceSaved := 0, processedFiles := 0, moved := [] }

/-- First of two distinct-path records sharing one content hash. -/
def wit2RecA : FileMetadata :=
  { filename := "a.mp4", path := "p/a.mp4", timestamp := "2022-03-01T12:00:00.000Z",
    copied := false, hash := "h" }

/-- Second of two distinct-path records sharing one content hash. -/
def wit2RecB : FileMetadata :=
  { filename := "b.mp4", path := "q/b.mp4", timestamp := "2022-03-01T12:00:00.000Z",
    copied := false, hash := "h" }

/-- The start state of a video run over the two hash-sharing records. -/
def wit2St : OrgState := initVideoState [wit2RecA, wit2RecB] []

/-- First of two image records with equal base names at distinct paths. -/
def wit3RecX : FileMetadata :=
  { filename := "x.jpg", path := "p/x.jpg", timestamp := "2022-03-01T12:00:00.000Z",
    copied := false, hash := "h1" }

/-- Second of two image records with equal base names at distinct paths. -/
def wit3RecY : FileMetadata :=
  { filename := "x.jpg", path := "q/x.jpg", timestamp := "2022-03-01T12:00:00.000Z",
    copied := false, hash := "h2" }

/-- An image-organizer state with the two same-base-name records. -/
def wit3St : OrgState :=
  { records := [wit3RecX, wit3RecY], fsys := [], copiedHashes := [],
    duplicateCount := 0, spaceSaved := 0, processedFiles := 0, moved := [] }

/-- Two source files resolving to one destination base name. -/
def wit3Files : List String := ["p/x.jpg", "q/x.jpg"]

/-- Three video records with equal base names, pairwise distinct paths and
pairwise distinct hashes. -/
def cex3Recs : List FileMetadata :=
  [{ filename := "x.mp4", path := "p/x.mp4", timestamp := "2022-03-01T12:00:00.000Z",
     copied := false, hash := "h1" },
   { filename := "x.mp4", path := "q/x.mp4", timestamp := "2022-03-01T12:00:00.000Z",
     copied := false, hash := "h2" },
   { filename := "x.mp4", path := "r/x.mp4", timestamp := "2022-03-01T12:00:00.000Z",
     copied := false, hash := "h3" }]

/-- The start state of a video run over the three same-base-name records. -/
def cex3St : OrgState := initVideoState cex3Recs []

/-- Three source files resolving to one destination base name. -/
def cex3Files : List String := ["p/x.mp4", "q/x.mp4", "r/x.mp4"]

/-- Two transferable image records, used with a failing first copy. -/
def cex4St : OrgState :=
  { records :=
      [{ filename := "x.jpg", path := "p/x.jpg", timestamp := "2022-03-01T12:00:00.000Z",
         copied := false, hash := "h1" },
       { filename := "y.jpg", path := "q/y.jpg", timestamp := "2022-03-01T12:00:00.000Z",
         copied := false, hash := "h2" }],
    fsys := [], copiedHashes := [],
    duplicateCount := 0, spaceSaved := 0, processedFiles := 0, moved := [] }

/-- A batch of two image files of which the first copy throws. -/
def cex4Files : List String := ["p/x.jpg", "q/y.jpg"]

/-- A failure oracle under which exactly the first file of cex4Files
throws. -/
def cex4Fail : String → Bool := fun p => p == "p/x.jpg"

/-- The source entries of the concrete spec scenario: photo1.jpg next to a
hidden trash directory holding photo2.jpg. -/
def scenarioEntries : List FsEntry :=
  [FsEntry.file "photo1.jpg", FsEntry.dir ".trash" [FsEntry.file "photo2.jpg"]]

/-- The metadata record of the scenario: photo1.jpg, born 2022-03-01, not
yet copied. -/
def scenarioRecord : FileMetadata :=
  { filename := "photo1.jpg", path := "a/photo1.jpg",
    timestamp := "2022-03-01T12:00:00.000Z", copied := false, hash := "hp" }

/-- The scenario start state: one record, empty destination tree. -/
def scenarioState : OrgState :=
  { records := [scenarioRecord], fsys := [], copiedHashes := [],
    duplicateCount := 0, spaceSaved := 0, processedFiles := 0, moved := [] }

/-- Thirteen occupied destination paths: the plain name and the first twelve
numeric suffixes. -/
def cex7Taken : List String :=
  "d/b.jpg" :: (List.range 12).map (fun k => "d/b(" ++ decimalStr (k + 1) ++ ").jpg")

/-- A video record carrying the sentinel timestamp. -/
def wit8Rec : FileMetadata :=
  { filename := "v.mp4", path := "p/v.mp4", timestamp := sentinelTimestamp,
    copied := false, hash := "h8" }

/-- The start state of a video run over the sentinel-timestamp record. -/
def wit8St : OrgState := initVideoState [wit8Rec] []

/-- A constant timestamp oracle for the metadata pass. -/
def wit9Stamp : String → String := fun _ => "2022-03-01T12:00:00.000Z"

/-- A hashing oracle that always fails. -/
def wit9Hash : String → Option String := fun _ => none

/-- A pre-existing metadata document with a copied flag set. -/
def wit9Old : List ScanRecord :=
  [{ filename := "photo1.jpg", path := "a/photo1.jpg",
     timestamp := "2020-01-01T00:00:00.000Z", copied := true, hash := none }]

/-- A record already copied, sharing its hash with wit10RecB. -/
def wit10RecA : FileMetadata :=
  { filename := "a.mp4", path := "p/a.mp4", timestamp := "2022-03-01T12:00:00.000Z",
    copied := true, hash := "h" }

/-- An un-copied record sharing its hash with the copied wit10RecA. -/
def wit10RecB : FileMetadata :=
  { filename := "b.mp4", path := "q/b.mp4", timestamp := "2022-03-01T12:00:00.000Z",
    copied := false, hash := "h" }

/-- A copied record and an un-copied record sharing one content hash. -/
def wit10Recs : List FileMetadata := [wit10RecA, wit10RecB]

/-- The start state of a video run over the store wit10Recs, as every run
over that store starts. -/
def wit10St : OrgState := initVideoState wit10Recs []

/-! Helper lemmas: decimal rendering. -/

theorem parseNatChars_concat (xs : List Char) (c : Char) :
    parseNatChars (xs ++ [c]) = 10 * parseNatChars xs + (c.toNat - 48) := by
  simp [parseNatChars, List.foldl_append]

theorem digitChar_toNat (d : Nat) (h : d < 10) : (Nat.digitChar d).toNat = 48 + d := by
  interval_cases d <;> rfl

theorem parse_decimalCharsAux (fuel : Nat) :
    ∀ n : Nat, n ≤ fuel → parseNatChars (decimalCharsAux fuel n) = n := by
  induction fuel with
  | zero =>
    intro n hn
    have h0 : n = 0 := by omega
    subst h0
    decide
  | succ fuel ih =>
    intro n hn
    by_cases h10 : n < 10
    · simp only [decimalCharsAux, if_pos h10]
      have : parseNatChars [Nat.digitChar n] = (Nat.digitChar n).toNat - 48 := by
        simp [parseNatChars]
      rw [this, digitChar_toNat n h10]
      omega
    · simp only [decimalCharsAux, if_neg h10]
      have hdiv : n / 10 < n := Nat.div_lt_self (by omega) (by omega)
      rw [parseNatChars_concat, ih (n / 10) (by omega),
        digitChar_toNat (n % 10) (Nat.mod_lt _ (by omega))]
      have := Nat.div_add_mod n 10
      omega

theorem parse_decimalStr (n : Nat) : parseNatChars (decimalStr n).data = n :=
  parse_decimalCharsAux n n le_rfl

theorem decimalStr_injective : Function.Injective decimalStr := by
  intro m n h
  have hd : (decimalStr m).data = (decimalStr n).data := by rw [h]
  have h1 := parse_decimalStr m
  have h2 := parse_decimalStr n
  rw [hd, h2] at h1
  omega

theorem decimalCharsAux_ne_nil (fuel n : Nat) : decimalCharsAux fuel n ≠ [] := by
  cases fuel with
  | zero => simp [decimalCharsAux]
  | succ fuel =>
    by_cases h10 : n < 10 <;> simp [decimalCharsAux, h10]

theorem decimalStr_length_pos (n : Nat) : 0 < (decimalStr n).length := by
  have h := decimalCharsAux_ne_nil n n
  have : (decimalStr n).length = (decimalCharsAux n n).length := rfl
  rw [this]
  exact List.length_pos.mpr h

/-! Helper lemmas: cancellation of string append. -/

theorem strAppend_left_cancel {a b c : String} (h : a ++ b = a ++ c) : b = c := by
  have h2 : (a ++ b).data = (a ++ c).data := by rw [h]
  simp [String.data_append] at h2
  exact String.ext h2

theorem strAppend_right_cancel {a b c : String} (h : a ++ c = b ++ c) : a = b := by
  have h2 : (a ++ c).data = (b ++ c).data := by rw [h]
  simp [String.data_append] at h2
  exact String.ext h2

theorem joinP_right_inj {d x y : String} (h : joinP d x = joinP d y) : x = y :=
  strAppend_left_cancel (a := d ++ "/") h

/-! Helper lemmas: injectivity of the candidate-name sequences. -/

theorem imageCandName_injective (fts baseName ext : String) :
    Function.Injective (imageCandName fts baseName ext) := by
  intro a b h
  cases a with
  | zero =>
    cases b with
    | zero => rfl
    | succ k =>
      exfalso
      have hlen := congrArg String.length h
      simp only [imageCandName, String.length_append] at hlen
      have := decimalStr_length_pos (k + 1)
      have hu : ("_" : String).length = 1 := rfl
      omega
  | succ j =>
    cases b with
    | zero =>
      exfalso
      have hlen := congrArg String.length h
      simp only [imageCandName, String.length_append] at hlen
      have := decimalStr_length_pos (j + 1)
      have hu : ("_" : String).length = 1 := rfl
      omega
    | succ k =>
      simp only [imageCandName] at h
      have h1 := strAppend_right_cancel h
      have h2 := strAppend_left_cancel (a := fts ++ "_" ++ baseName ++ "_") h1
      have := decimalStr_injective h2
      omega

theorem imageCand_injective (typeDir fts baseName ext : String) :
    Function.Injective (imageCand typeDir fts baseName ext) := by
  intro a b h
  exact imageCandName_injective fts baseName ext (joinP_right_inj h)

theorem uniqueCand_tail_inj (destPath baseName ext : String) :
    ∀ a b : Nat, uniqueCand destPath baseName ext (a + 1) = uniqueCand destPath baseName ext (b + 1) →
      a = b := by
  intro a b h
  simp only [uniqueCand] at h
  have h1 := joinP_right_inj h
  have h2 := strAppend_right_cancel h1
  have h3 := strAppend_right_cancel h2
  have h4 := strAppend_left_cancel (a := baseName ++ "(") h3
  have := decimalStr_injective h4
  omega

/-! Helper lemmas: membership and the free-candidate search. -/

theorem contains_eq_true_iff (l : List String) (s : String) :
    l.contains s = true ↔ s ∈ l := by
  simp [List.contains]

theorem contains_eq_false_iff (l : List String) (s : String) :
    l.contains s = false ↔ s ∉ l := by
  simp [List.contains]

theorem findFree_succeeds (taken : String → Bool) (cand : Nat → String) :
    ∀ fuel i : Nat, (∃ j, j < fuel ∧ taken (cand (i + j)) = false) →
      ∃ n, findFree taken cand fuel i = some n ∧ taken (cand n) = false ∧ i ≤ n ∧ n < i + fuel := by
  intro fuel
  induction fuel with
  | zero =>
    intro i h
    obtain ⟨j, hj, _⟩ := h
    omega
  | succ fuel ih =>
    intro i h
    obtain ⟨j, hj, hfree⟩ := h
    cases htaken : taken (cand i) with
    | false =>
      exact ⟨i, by simp [findFree, htaken], htaken, le_rfl, by omega⟩
    | true =>
      have hj0 : j ≠ 0 := by
        intro h0
        subst h0
        simp at hfree
        rw [hfree] at htaken
        exact Bool.false_ne_true htaken
      obtain ⟨n, heq, hfr, hle, hlt⟩ := ih (i + 1)
        ⟨j - 1, by omega, by rw [show i + 1 + (j - 1) = i + j by omega]; exact hfree⟩
      refine ⟨n, ?_, hfr, by omega, by omega⟩
      simp [findFree, htaken, heq]

theorem exists_free_candidate (fs : List String) (cand : Nat → String) (s : Nat)
    (hinj : ∀ a b : Nat, cand (a + s) = cand (b + s) → a = b) :
    ∃ j, j < fs.length + 1 ∧ fs.contains (cand (j + s)) = false := by
  by_contra hall
  push_neg at hall
  have hmem : ∀ j, j < fs.length + 1 → cand (j + s) ∈ fs := by
    intro j hj
    have h1 := hall j hj
    have h2 : fs.contains (cand (j + s)) = true := by
      cases h : fs.contains (cand (j + s)) with
      | false => exact absurd h h1
      | true => rfl
    exact (contains_eq_true_iff fs _).mp h2
  have hnd : ((List.range (fs.length + 1)).map (fun j => cand (j + s))).Nodup :=
    (List.nodup_range _).map (fun a b hab => hinj a b hab)
  have hsub : ∀ x ∈ (List.range (fs.length + 1)).map (fun j => cand (j + s)), x ∈ fs := by
    intro x hx
    simp only [List.mem_map, List.mem_range] at hx
    obtain ⟨j, hj, rfl⟩ := hx
    exact hmem j hj
  have hcard1 : ((List.range (fs.length + 1)).map (fun j => cand (j + s))).toFinset.card =
      ((List.range (fs.length + 1)).map (fun j => cand (j + s))).length :=
    List.toFinset_card_of_nodup hnd
  have hlen : ((List.range (fs.length + 1)).map (fun j => cand (j + s))).length =
      fs.length + 1 := by simp
  have hsubF : ((List.range (fs.length + 1)).map (fun j => cand (j + s))).toFinset ⊆
      fs.toFinset := by
    intro x hx
    rw [List.mem_toFinset] at hx ⊢
    exact hsub x hx
  have hle := Finset.card_le_card hsubF
  have h2 := List.toFinset_card_le fs
  omega

theorem suffixSearch_free (fs : List String) (cand : Nat → String)
    (hinj : Function.Injective cand) :
    cand (suffixSearch fs cand) ∉ fs ∧
      findFree (fun s => fs.contains s) cand (fs.length + 1) 0 = some (suffixSearch fs cand) := by
  obtain ⟨j, hj, hfree⟩ := exists_free_candidate fs cand 0 (fun a b hab => hinj (by simpa using hab))
  obtain ⟨n, heq, hfr, _, _⟩ := findFree_succeeds (fun s => fs.contains s) cand (fs.length + 1) 0
    ⟨j, hj, by simpa using hfree⟩
  have hs : suffixSearch fs cand = n := by
    unfold suffixSearch
    rw [heq]
  constructor
  · rw [hs]
    exact (contains_eq_false_iff fs _).mp hfr
  · rw [hs]
    exact heq

theorem suffixSearch_zero (fs : List String) (cand : Nat → String)
    (h : fs.contains (cand 0) = false) : suffixSearch fs cand = 0 := by
  have hmem : cand 0 ∉ fs := (contains_eq_false_iff fs _).mp h
  have hff : findFree (fun s => fs.contains s) cand (fs.length + 1) 0 = some 0 := by
    simp [findFree, hmem]
  unfold suffixSearch
  rw [hff]

theorem getUniqueDestPath_spec (fsys : List String) (destPath baseName ext : String) :
    ∃ n, n < fsys.length + 2 ∧
      findFree (fun s => fsys.contains s) (uniqueCand destPath baseName ext)
          (fsys.length + 2) 0 = some n ∧
      getUniqueDestPath fsys destPath baseName ext = uniqueCand destPath baseName ext n ∧
      getUniqueDestPath fsys destPath baseName ext ∉ fsys := by
  obtain ⟨j, hj, hfree⟩ :=
    exists_free_candidate fsys (uniqueCand destPath baseName ext) 1
      (uniqueCand_tail_inj destPath baseName ext)
  obtain ⟨n, heq, hfr, _, hlt⟩ :=
    findFree_succeeds (fun s => fsys.contains s) (uniqueCand destPath baseName ext)
      (fsys.length + 2) 0 ⟨j + 1, by omega, by simpa using hfree⟩
  have hg : getUniqueDestPath fsys destPath baseName ext = uniqueCand destPath baseName ext n := by
    unfold getUniqueDestPath
    rw [heq]
  refine ⟨n, by omega, heq, hg, ?_⟩
  rw [hg]
  exact (contains_eq_false_iff fsys _).mp hfr

/-! Helper lemmas: the metadata map. -/

theorem lookupRecord_mem {rs : List FileMetadata} {p : String} {r : FileMetadata}
    (h : lookupRecord rs p = some r) : r ∈ rs := by
  have := List.mem_of_find?_eq_some h
  exact List.mem_reverse.mp this

theorem lookupRecord_path {rs : List FileMetadata} {p : String} {r : FileMetadata}
    (h : lookupRecord rs p = some r) : r.path = p := by
  have := List.find?_some h
  exact eq_of_beq this

theorem find?_updateFirstRecord_ne (g : FileMetadata → FileMetadata)
    (hg : ∀ r, (g r).path = r.path) (q p : String) (hpq : p ≠ q) :
    ∀ l : List FileMetadata,
      (updateFirstRecord (fun r => r.path == q) g l).find? (fun r => r.path == p) =
        l.find? (fun r => r.path == p) := by
  intro l
  induction l with
  | nil => rfl
  | cons r rs ih =>
    by_cases hq : r.path == q
    · have hrq : r.path = q := eq_of_beq hq
      have h1 : ((g r).path == p) = false := by
        rw [hg r, hrq]
        exact beq_false_of_ne (Ne.symm hpq)
      have h2 : (r.path == p) = false := by
        rw [hrq]
        exact beq_false_of_ne (Ne.symm hpq)
      simp [updateFirstRecord, hq, List.find?, h1, h2]
    · simp only [updateFirstRecord, if_neg hq]
      by_cases hp : r.path == p
      · simp [List.find?, hp]
      · simp only [List.find?, Bool.not_eq_true] at hp ⊢
        rw [hp]
        exact ih

theorem lookup_updateLastRecord_ne (rs : List FileMetadata) (q p : String)
    (g : FileMetadata → FileMetadata) (hg : ∀ r, (g r).path = r.path) (hpq : p ≠ q) :
    lookupRecord (updateLastRecord rs q g) p = lookupRecord rs p := by
  unfold lookupRecord updateLastRecord
  rw [List.reverse_reverse]
  exact find?_updateFirstRecord_ne g hg q p hpq rs.reverse

theorem initVideoState_hash_mem {rs : List FileMetadata} (fs0 : List String)
    {rc : FileMetadata} (hmem : rc ∈ rs) (hc : rc.copied = true) :
    (initVideoState rs fs0).copiedHashes.contains rc.hash = true := by
  rw [contains_eq_true_iff]
  simp only [initVideoState]
  exact List.mem_map_of_mem _ (List.mem_filter.mpr ⟨hmem, hc⟩)

/-! Helper lemmas: the hash-aware video organizer, one step. -/

theorem processFileVideo_dup (fail : String → Bool) (size : String → Nat)
    (today d : String) (st : OrgState) (f : String) (r : FileMetadata)
    (hl : lookupRecord st.records f = some r)
    (hc : st.copiedHashes.contains r.hash = true) :
    processFileVideo fail size today d st f =
      { st with
        duplicateCount := st.duplicateCount + 1,
        spaceSaved := st.spaceSaved + size f } := by
  unfold processFileVideo
  rw [hl]
  simp only [hc, if_true]

theorem processFileVideo_fail (fail : String → Bool) (size : String → Nat)
    (today d : String) (st : OrgState) (f : String)
    (hf : fail f = true) :
    (processFileVideo fail size today d st f).records = st.records ∧
      (processFileVideo fail size today d st f).copiedHashes = st.copiedHashes ∧
      (processFileVideo fail size today d st f).processedFiles = st.processedFiles ∧
      (processFileVideo fail size today d st f).moved = st.moved ∧
      (processFileVideo fail size today d st f).duplicateCount ≥ st.duplicateCount := by
  unfold processFileVideo
  cases hl : lookupRecord st.records f with
  | none => simp
  | some r =>
    by_cases hc : r.hash ∈ st.copiedHashes
    · simp [hc]
    · simp [hc, hf]

theorem processFileVideo_transfer (fail : String → Bool) (size : String → Nat)
    (today d : String) (st : OrgState) (f : String) (r : FileMetadata)
    (hl : lookupRecord st.records f = some r)
    (hc : st.copiedHashes.contains r.hash = false)
    (hf : fail f = false) :
    ∃ name,
      processFileVideo fail size today d st f =
        { st with
          fsys := List.insert (joinP (videoTypeDir d f) name)
            ((List.insert (videoTypeDir d f) st.fsys).erase f),
          records := updateLastRecord st.records f (fun x => { x with copied := true }),
          copiedHashes := List.insert r.hash st.copiedHashes,
          processedFiles := st.processedFiles + 1,
          moved := st.moved ++ [joinP (videoTypeDir d f) name] } ∧
      (name = formatTimestampVideos today r.timestamp ++ "_" ++
          basenameStrip f (strLower (extname f)) ++ strLower (extname f) ∨
        name = formatTimestampVideos today r.timestamp ++ "_" ++
          basenameStrip f (strLower (extname f)) ++ "_copy" ++ strLower (extname f)) := by
  unfold processFileVideo
  rw [hl]
  simp only [hc, Bool.false_eq_true, if_false, hf]
  by_cases hcond : (List.insert (videoTypeDir d f) st.fsys).contains
      (joinP (videoTypeDir d f)
        (formatTimestampVideos today r.timestamp ++ "_" ++
          basenameStrip f (strLower (extname f)) ++ strLower (extname f)))
  · refine ⟨formatTimestampVideos today r.timestamp ++ "_" ++
      basenameStrip f (strLower (extname f)) ++ "_copy" ++ strLower (extname f), ?_, Or.inr rfl⟩
    simp only [hcond, if_true]
  · refine ⟨formatTimestampVideos today r.timestamp ++ "_" ++
      basenameStrip f (strLower (extname f)) ++ strLower (extname f), ?_, Or.inl rfl⟩
    simp only [Bool.not_eq_true] at hcond
    simp only [hcond, Bool.false_eq_true, if_false]

/-! Helper lemmas: the image organizer, one step. -/

theorem processFileImage_copied (fail : String → Bool) (d : String) (st : OrgState)
    (f : String) (r : FileMetadata)
    (hl : lookupRecord st.records f = some r) (hc : r.copied = true) :
    processFileImage fail d st f = Except.ok st := by
  unfold processFileImage
  by_cases hext : imageExtensions.contains (strLower (extname f))
  · simp [hext, hl, hc]
  · have hm : strLower (extname f) ∉ imageExtensions := by
      rw [← contains_eq_true_iff]
      exact hext
    simp [hm]

theorem processFileImageOk_transfer (d : String) (st : OrgState) (f : String)
    (r : FileMetadata)
    (hext : imageExtensions.contains (strLower (extname f)) = true)
    (hl : lookupRecord st.records f = some r)
    (hc : r.copied = false) :
    processFileImageOk d st f =
      { st with
        fsys := List.insert (imagePick d st f r) (List.insert (imageTypeDir d f) st.fsys),
        records := updateLastRecord st.records f
          (fun x => { x with copied := true, filename := imagePickName d st f r }),
        processedFiles := st.processedFiles + 1,
        moved := st.moved ++ [imagePick d st f r] } ∧
      imagePick d st f r ∉ List.insert (imageTypeDir d f) st.fsys := by
  constructor
  · unfold processFileImageOk
    simp only [hext, Bool.not_true, Bool.false_eq_true, if_false, hl, hc,
      imagePick, imagePickName, imageCand]
  · have h := (suffixSearch_free (List.insert (imageTypeDir d f) st.fsys)
      (imageCand (imageTypeDir d f) (formatTimestampImages r.timestamp)
        (basenameStrip f (strLower (extname f))) (strLower (extname f)))
      (imageCand_injective _ _ _ _)).1
    exact h

theorem transferableB_elim {st : OrgState} {f : String} (h : transferableB st f = true) :
    imageExtensions.contains (strLower (extname f)) = true ∧
      ∃ r, lookupRecord st.records f = some r ∧ r.copied = false := by
  unfold transferableB at h
  cases hl : lookupRecord st.records f with
  | none =>
    rw [hl] at h
    simp at h
  | some r =>
    rw [hl] at h
    simp only [Bool.and_eq_true, Bool.not_eq_true'] at h
    exact ⟨h.1, r, rfl, h.2⟩

theorem transferableB_congr {st st2 : OrgState} {f : String}
    (h : lookupRecord st2.records f = lookupRecord st.records f) :
    transferableB st2 f = transferableB st f := by
  unfold transferableB
  rw [h]

theorem imagePick_zero (d : String) (st : OrgState) (f : String) (r : FileMetadata)
    (h : imageCand (imageTypeDir d f) (formatTimestampImages r.timestamp)
        (basenameStrip f (strLower (extname f))) (strLower (extname f)) 0 ∉
        List.insert (imageTypeDir d f) st.fsys) :
    imagePick d st f r = imageCand (imageTypeDir d f) (formatTimestampImages r.timestamp)
        (basenameStrip f (strLower (extname f))) (strLower (extname f)) 0 ∧
      imagePickName d st f r = imageCandName (formatTimestampImages r.timestamp)
        (basenameStrip f (strLower (extname f))) (strLower (extname f)) 0 := by
  have hz := suffixSearch_zero (List.insert (imageTypeDir d f) st.fsys)
    (imageCand (imageTypeDir d f) (formatTimestampImages r.timestamp)
      (basenameStrip f (strLower (extname f))) (strLower (extname f)))
    ((contains_eq_false_iff _ _).mpr h)
  constructor
  · simp only [imagePick, imagePickName, imageCand]
    rw [hz]
  · simp only [imagePickName]
    rw [hz]

/-! Helper lemmas: the image organizer batch produces pairwise distinct
fresh destination paths. -/

theorem runImageOk_nil (d : String) (st : OrgState) : runImageOk d st [] = st := rfl

theorem runImageOk_cons (d : String) (st : OrgState) (f : String) (rest : List String) :
    runImageOk d st (f :: rest) = runImageOk d (processFileImageOk d st f) rest := rfl

theorem runImageOk_spec (d : String) :
    ∀ (files : List String) (st : OrgState),
      files.Nodup →
      (∀ f ∈ files, transferableB st f = true) →
      st.moved.Nodup →
      (∀ p ∈ st.moved, p ∈ st.fsys) →
      ∃ nm, (runImageOk d st files).moved = st.moved ++ nm ∧
        nm.length = files.length ∧
        (runImageOk d st files).moved.Nodup ∧
        (∀ p ∈ nm, p ∉ st.fsys) ∧
        (∀ p ∈ (runImageOk d st files).moved, p ∈ (runImageOk d st files).fsys) ∧
        (∀ x ∈ st.fsys, x ∈ (runImageOk d st files).fsys) := by
  intro files
  induction files with
  | nil =>
    intro st _ _ hmn hms
    exact ⟨[], by simp [runImageOk_nil], rfl, by rw [runImageOk_nil]; exact hmn,
      by simp, by rw [runImageOk_nil]; exact hms, by rw [runImageOk_nil]; exact fun x hx => hx⟩
  | cons f rest ih =>
    intro st hnd hall hmn hms
    have hT := hall f (List.mem_cons_self f rest)
    obtain ⟨hext, r, hl, hc⟩ := transferableB_elim hT
    obtain ⟨hstep, hfree⟩ := processFileImageOk_transfer d st f r hext hl hc
    have hfsys1 : (processFileImageOk d st f).fsys =
        List.insert (imagePick d st f r) (List.insert (imageTypeDir d f) st.fsys) := by
      rw [hstep]
    have hmv1 : (processFileImageOk d st f).moved = st.moved ++ [imagePick d st f r] := by
      rw [hstep]
    have hrec1 : (processFileImageOk d st f).records = updateLastRecord st.records f
        (fun x => { x with copied := true, filename := imagePickName d st f r }) := by
      rw [hstep]
    have hdp_not_st : imagePick d st f r ∉ st.fsys := fun hmem =>
      hfree (List.mem_insert_of_mem hmem)
    have hdp_not_moved : imagePick d st f r ∉ st.moved := fun hmem =>
      hdp_not_st (hms _ hmem)
    have hnd' : rest.Nodup := (List.nodup_cons.mp hnd).2
    have hfn : f ∉ rest := (List.nodup_cons.mp hnd).1
    have hall' : ∀ g ∈ rest, transferableB (processFileImageOk d st f) g = true := by
      intro g hg
      have hgf : g ≠ f := fun he => hfn (he ▸ hg)
      have hlk : lookupRecord (processFileImageOk d st f).records g =
          lookupRecord st.records g := by
        rw [hrec1]
        exact lookup_updateLastRecord_ne st.records f g _ (fun x => rfl) hgf
      rw [transferableB_congr hlk]
      exact hall g (List.mem_cons_of_mem f hg)
    have hmn1 : (processFileImageOk d st f).moved.Nodup := by
      rw [hmv1]
      refine List.Nodup.append hmn (List.nodup_singleton _) ?_
      intro a ha hb
      simp only [List.mem_singleton] at hb
      exact hdp_not_moved (hb ▸ ha)
    have hms1 : ∀ p ∈ (processFileImageOk d st f).moved, p ∈ (processFileImageOk d st f).fsys := by
      intro p hp
      rw [hmv1] at hp
      rw [hfsys1]
      rcases List.mem_append.mp hp with hp | hp
      · exact List.mem_insert_of_mem (List.mem_insert_of_mem (hms p hp))
      · simp only [List.mem_singleton] at hp
        rw [hp]
        exact List.mem_insert_self _ _
    obtain ⟨nm, hmeq, hlen, hnodup, hnotin, hmvfs, hmono⟩ :=
      ih (processFileImageOk d st f) hnd' hall' hmn1 hms1
    refine ⟨imagePick d st f r :: nm, ?_, ?_, ?_, ?_, ?_, ?_⟩
    · rw [runImageOk_cons, hmeq, hmv1]
      simp
    · simp [hlen]
    · rw [runImageOk_cons]
      exact hnodup
    · intro p hp
      rcases List.mem_cons.mp hp with hp | hp
      · rw [hp]
        exact hdp_not_st
      · intro hmem
        exact hnotin p hp (by
          rw [hfsys1]
          exact List.mem_insert_of_mem (List.mem_insert_of_mem hmem))
    · rw [runImageOk_cons]
      exact hmvfs
    · intro x hx
      rw [runImageOk_cons]
      exact hmono x (by
        rw [hfsys1]
        exact List.mem_insert_of_mem (List.mem_insert_of_mem hx))

/-! Helper lemmas: the hidden-filtering directory collector. -/

theorem collectFilesHidden_eq : ∀ (root : String) (es : List FsEntry),
    collectFilesHidden root es = (visibleFiles es).map (joinChain root)
  | _, [] => by simp [collectFilesHidden, visibleFiles]
  | root, FsEntry.file n :: rest => by
    by_cases h : hiddenName n <;>
      simp [collectFilesHidden, visibleFiles, h, collectFilesHidden_eq root rest, joinChain]
  | root, FsEntry.dir n cs :: rest => by
    by_cases h : hiddenName n
    · simp [collectFilesHidden, visibleFiles, h, collectFilesHidden_eq root rest]
    · simp [collectFilesHidden, visibleFiles, h, collectFilesHidden_eq root rest,
        collectFilesHidden_eq (joinP root n) cs, List.map_map]
      intro ns _
      rfl

theorem visibleFiles_no_hidden : ∀ (es : List FsEntry),
    ∀ ns ∈ visibleFiles es, ∀ n ∈ ns, hiddenName n = false
  | [] => by simp [visibleFiles]
  | FsEntry.file n :: rest => by
    intro ns hns m hm
    by_cases h : hiddenName n
    · simp only [visibleFiles, h, if_true, List.nil_append] at hns
      exact visibleFiles_no_hidden rest ns hns m hm
    · simp only [visibleFiles, h, Bool.false_eq_true, if_false, List.singleton_append,
        List.mem_cons] at hns
      rcases hns with hns | hns
      · rw [hns] at hm
        simp only [List.mem_singleton] at hm
        rw [hm]
        exact Bool.eq_false_iff.mpr h
      · exact visibleFiles_no_hidden rest ns hns m hm
  | FsEntry.dir n cs :: rest => by
    intro ns hns m hm
    by_cases h : hiddenName n
    · simp only [visibleFiles, h, if_true, List.nil_append] at hns
      exact visibleFiles_no_hidden rest ns hns m hm
    · simp only [visibleFiles, h, Bool.false_eq_true, if_false, List.mem_append,
        List.mem_map] at hns
      rcases hns with ⟨ns0, hns0, hns0eq⟩ | hns
      · rw [← hns0eq] at hm
        simp only [List.mem_cons] at hm
        rcases hm with hm | hm
        · rw [hm]
          exact Bool.eq_false_iff.mpr h
        · exact visibleFiles_no_hidden cs ns0 hns0 m hm
      · exact visibleFiles_no_hidden rest ns hns m hm

/-! Helper lemmas: the metadata-generation pass. -/

theorem getFileMetadata_copied_false (stamp : String → String)
    (hashFn : String → Option String) : ∀ (root : String) (es : List FsEntry),
    ∀ r ∈ getFileMetadata stamp hashFn root es, r.copied = false
  | _, [] => by simp [getFileMetadata]
  | root, FsEntry.file n :: rest => by
    intro r hr
    by_cases h : hiddenName n
    · simp only [getFileMetadata, h, if_true, List.nil_append] at hr
      exact getFileMetadata_copied_false stamp hashFn root rest r hr
    · simp only [getFileMetadata, h, Bool.false_eq_true, if_false, List.singleton_append,
        List.mem_cons] at hr
      rcases hr with hr | hr
      · rw [hr]
      · exact getFileMetadata_copied_false stamp hashFn root rest r hr
  | root, FsEntry.dir n cs :: rest => by
    intro r hr
    by_cases h : hiddenName n
    · simp only [getFileMetadata, h, if_true, List.nil_append] at hr
      exact getFileMetadata_copied_false stamp hashFn root rest r hr
    · simp only [getFileMetadata, h, Bool.false_eq_true, if_false, List.mem_append] at hr
      rcases hr with hr | hr
      · exact getFileMetadata_copied_false stamp hashFn (joinP root n) cs r hr
      · exact getFileMetadata_copied_false stamp hashFn root rest r hr

/-! The claims. -/

/-- C1: a file whose record has copied true at the start of an organization
pass is treated as settled: the image organizer returns its state exactly
unchanged before touching the filesystem, and the hash-aware video
organizer, whose start state holds the hash of every copied record in the
duplicate index, takes the duplicate-skip branch, leaving the metadata array
and the filesystem unchanged and performing no transfer. -/
theorem claim_C1 (fail : String → Bool) (size : String → Nat) (today d : String) :
    (∀ (st : OrgState) (f : String) (r : FileMetadata),
      lookupRecord st.records f = some r → r.copied = true →
      processFileImage fail d st f = Except.ok st) ∧
    (∀ (rs : List FileMetadata) (fs0 : List String) (f : String) (r : FileMetadata),
      lookupRecord rs f = some r → r.copied = true →
      processFileVideo fail size today d (initVideoState rs fs0) f =
        { initVideoState rs fs0 with
          duplicateCount := (initVideoState rs fs0).duplicateCount + 1,
          spaceSaved := (initVideoState rs fs0).spaceSaved + size f }) := by
  constructor
  · intro st f r hl hc
    exact processFileImage_copied fail d st f r hl hc
  · intro rs fs0 f r hl hc
    have hmem : r ∈ rs := lookupRecord_mem hl
    have hh := initVideoState_hash_mem fs0 hmem hc
    exact processFileVideo_dup fail size today d (initVideoState rs fs0) f r hl hh

/-- C1 witness: the skip at a concrete already-copied record. -/
theorem claim_C1_witness :
    processFileImage (fun _ => false) "out" wit1St "p/x.jpg" = Except.ok wit1St ∧
      processFileVideo (fun _ => false) (fun _ => 7) "2024-05-01" "out"
          (initVideoState [wit1Rec] []) "p/x.jpg" =
        { initVideoState [wit1Rec] [] with
          duplicateCount := (initVideoState [wit1Rec] []).duplicateCount + 1,
          spaceSaved := (initVideoState [wit1Rec] []).spaceSaved + 7 } :=
  ⟨(claim_C1 (fun _ => false) (fun _ => 7) "2024-05-01" "out").1 wit1St "p/x.jpg" wit1Rec
      (by decide) (by decide),
    (claim_C1 (fun _ => false) (fun _ => 7) "2024-05-01" "out").2 [wit1Rec] [] "p/x.jpg" wit1Rec
      (by decide) (by decide)⟩

/-- C2 counterexample: part_000 dispatches its per-file tasks through a
ten-wide pool under Promise.all, and each task checks copiedHashes
synchronously at its start while the matching insertion happens only after
several awaited filesystem steps.  Under the realizable schedule in which
both tasks of a two-duplicate batch run their opening sections before
either resumes - the normal event-loop order for two pending tasks - both
files pass the duplicate check: both are transferred, the duplicate counter
stays at zero and nothing is added to the space-saved total. -/
theorem claim_C2_counterexample :
    (runSchedule (fun _ => false) (fun _ => 3) "2024-05-01" "out" wit2St
        ["p/a.mp4", "q/b.mp4"] [0, 1, 0, 1]).1.duplicateCount = 0 ∧
      (runSchedule (fun _ => false) (fun _ => 3) "2024-05-01" "out" wit2St
        ["p/a.mp4", "q/b.mp4"] [0, 1, 0, 1]).1.spaceSaved = 0 ∧
      (runSchedule (fun _ => false) (fun _ => 3) "2024-05-01" "out" wit2St
        ["p/a.mp4", "q/b.mp4"] [0, 1, 0, 1]).1.processedFiles = 2 ∧
      (runSchedule (fun _ => false) (fun _ => 3) "2024-05-01" "out" wit2St
        ["p/a.mp4", "q/b.mp4"] [0, 1, 0, 1]).1.moved.length = 2 := by
  decide

/-- C2 amended: the duplicate skip is guaranteed only when the two tasks do
not overlap.  A task resumed to completion alone behaves exactly as the
sequential step, and under the schedule in which the first task completes
before the second starts, whichever of two un-copied same-hash files is
processed second is skipped as a duplicate with its byte size added to the
space-saved total and its record left unchanged, in either order; under the
concurrent dispatch both duplicate checks can precede either hash insertion,
and then both files are transferred and nothing is counted. -/
theorem claim_C2 (fail : String → Bool) (size : String → Nat) (today d : String) :
    (∀ (st : OrgState) (f : String),
      runOne fail size today d st f = processFileVideo fail size today d st f) ∧
    (∀ (st : OrgState) (a b : String) (rA rB : FileMetadata),
      a ≠ b →
      lookupRecord st.records a = some rA →
      lookupRecord st.records b = some rB →
      rB.hash = rA.hash →
      st.copiedHashes.contains rA.hash = false →
      fail a = false → fail b = false →
      (((processFileVideo fail size today d
            (processFileVideo fail size today d st a) b).duplicateCount =
          st.duplicateCount + 1 ∧
        (processFileVideo fail size today d
            (processFileVideo fail size today d st a) b).spaceSaved =
          st.spaceSaved + size b ∧
        lookupRecord (processFileVideo fail size today d
            (processFileVideo fail size today d st a) b).records b = some rB) ∧
      ((processFileVideo fail size today d
            (processFileVideo fail size today d st b) a).duplicateCount =
          st.duplicateCount + 1 ∧
        (processFileVideo fail size today d
            (processFileVideo fail size today d st b) a).spaceSaved =
          st.spaceSaved + size a ∧
        lookupRecord (processFileVideo fail size today d
            (processFileVideo fail size today d st b) a).records a = some rA))) := by
  constructor
  · intro st f
    cases hl : lookupRecord st.records f with
    | none =>
      have h1 : stepTask fail size today d st (VTask.start f) = (st, none) := by
        simp only [stepTask, hl]
      unfold runOne
      rw [h1]
      unfold processFileVideo
      rw [hl]
    | some r =>
      cases hc : st.copiedHashes.contains r.hash with
      | true =>
        have h1 : stepTask fail size today d st (VTask.start f) =
            (st, some (VTask.dupStat f)) := by
          simp only [stepTask, hl, hc, if_true]
        unfold runOne
        rw [h1]
        unfold processFileVideo
        rw [hl]
        simp only [hc, if_true]
        rfl
      | false =>
        have h1 : stepTask fail size today d st (VTask.start f) =
            (st, some (VTask.transfer f r)) := by
          simp only [stepTask, hl, hc, Bool.false_eq_true, if_false]
        unfold runOne
        rw [h1]
        unfold processFileVideo
        rw [hl]
        simp only [hc, Bool.false_eq_true, if_false]
        cases hfl : fail f with
        | true => simp only [stepTask, hfl, if_true]
        | false => simp only [stepTask, hfl, Bool.false_eq_true, if_false]
  · intro st a b rA rB hab hA hB hhash hnew hfa hfb
    constructor
    · obtain ⟨name, hstep, _⟩ := processFileVideo_transfer fail size today d st a rA hA hnew hfa
      have hrec : (processFileVideo fail size today d st a).records =
          updateLastRecord st.records a (fun x => { x with copied := true }) := by rw [hstep]
      have hch : (processFileVideo fail size today d st a).copiedHashes =
          List.insert rA.hash st.copiedHashes := by rw [hstep]
      have hdc : (processFileVideo fail size today d st a).duplicateCount =
          st.duplicateCount := by rw [hstep]
      have hsp : (processFileVideo fail size today d st a).spaceSaved = st.spaceSaved := by
        rw [hstep]
      have hlb : lookupRecord (processFileVideo fail size today d st a).records b = some rB := by
        rw [hrec, lookup_updateLastRecord_ne st.records a b
          (fun x => { x with copied := true }) (fun x => rfl) (Ne.symm hab)]
        exact hB
      have hc2 : (processFileVideo fail size today d st a).copiedHashes.contains rB.hash =
          true := by
        rw [hch, hhash]
        exact (contains_eq_true_iff _ _).mpr (List.mem_insert_self _ _)
      have hdup := processFileVideo_dup fail size today d
        (processFileVideo fail size today d st a) b rB hlb hc2
      refine ⟨?_, ?_, ?_⟩
      · rw [show (processFileVideo fail size today d
            (processFileVideo fail size today d st a) b).duplicateCount =
            (processFileVideo fail size today d st a).duplicateCount + 1 from by rw [hdup], hdc]
      · rw [show (processFileVideo fail size today d
            (processFileVideo fail size today d st a) b).spaceSaved =
            (processFileVideo fail size today d st a).spaceSaved + size b from by rw [hdup], hsp]
      · rw [show (processFileVideo fail size today d
            (processFileVideo fail size today d st a) b).records =
            (processFileVideo fail size today d st a).records from by rw [hdup]]
        exact hlb
    · have hnewB : st.copiedHashes.contains rB.hash = false := by rw [hhash]; exact hnew
      obtain ⟨name, hstep, _⟩ := processFileVideo_transfer fail size today d st b rB hB hnewB hfb
      have hrec : (processFileVideo fail size today d st b).records =
          updateLastRecord st.records b (fun x => { x with copied := true }) := by rw [hstep]
      have hch : (processFileVideo fail size today d st b).copiedHashes =
          List.insert rB.hash st.copiedHashes := by rw [hstep]
      have hdc : (processFileVideo fail size today d st b).duplicateCount =
          st.duplicateCount := by rw [hstep]
      have hsp : (processFileVideo fail size today d st b).spaceSaved = st.spaceSaved := by
        rw [hstep]
      have hla : lookupRecord (processFileVideo fail size today d st b).records a = some rA := by
        rw [hrec, lookup_updateLastRecord_ne st.records b a
          (fun x => { x with copied := true }) (fun x => rfl) hab]
        exact hA
      have hc2 : (processFileVideo fail size today d st b).copiedHashes.contains rA.hash =
          true := by
        rw [hch, ← hhash]
        exact (contains_eq_true_iff _ _).mpr (List.mem_insert_self _ _)
      have hdup := processFileVideo_dup fail size today d
        (processFileVideo fail size today d st b) a rA hla hc2
      refine ⟨?_, ?_, ?_⟩
      · rw [show (processFileVideo fail size today d
            (processFileVideo fail size today d st b) a).duplicateCount =
            (processFileVideo fail size today d st b).duplicateCount + 1 from by rw [hdup], hdc]
      · rw [show (processFileVideo fail size today d
            (processFileVideo fail size today d st b) a).spaceSaved =
            (processFileVideo fail size today d st b).spaceSaved + size a from by rw [hdup], hsp]
      · rw [show (processFileVideo fail size today d
            (processFileVideo fail size today d st b) a).records =
            (processFileVideo fail size today d st b).records from by rw [hdup]]
        exact hla

/-- C2 witness: the two concrete hash-sharing records, solo-run agreement
and both no-overlap orders. -/
theorem claim_C2_witness :
    runOne (fun _ => false) (fun _ => 3) "2024-05-01" "out" wit2St "p/a.mp4" =
      processFileVideo (fun _ => false) (fun _ => 3) "2024-05-01" "out" wit2St "p/a.mp4" ∧
    (((processFileVideo (fun _ => false) (fun _ => 3) "2024-05-01" "out"
          (processFileVideo (fun _ => false) (fun _ => 3) "2024-05-01" "out" wit2St
            "p/a.mp4") "q/b.mp4").duplicateCount = wit2St.duplicateCount + 1 ∧
      (processFileVideo (fun _ => false) (fun _ => 3) "2024-05-01" "out"
          (processFileVideo (fun _ => false) (fun _ => 3) "2024-05-01" "out" wit2St
            "p/a.mp4") "q/b.mp4").spaceSaved = wit2St.spaceSaved + 3 ∧
      lookupRecord (processFileVideo (fun _ => false) (fun _ => 3) "2024-05-01" "out"
          (processFileVideo (fun _ => false) (fun _ => 3) "2024-05-01" "out" wit2St
            "p/a.mp4") "q/b.mp4").records "q/b.mp4" = some wit2RecB) ∧
    ((processFileVideo (fun _ => false) (fun _ => 3) "2024-05-01" "out"
          (processFileVideo (fun _ => false) (fun _ => 3) "2024-05-01" "out" wit2St
            "q/b.mp4") "p/a.mp4").duplicateCount = wit2St.duplicateCount + 1 ∧
      (processFileVideo (fun _ => false) (fun _ => 3) "2024-05-01" "out"
          (processFileVideo (fun _ => false) (fun _ => 3) "2024-05-01" "out" wit2St
            "q/b.mp4") "p/a.mp4").spaceSaved = wit2St.spaceSaved + 3 ∧
      lookupRecord (processFileVideo (fun _ => false) (fun _ => 3) "2024-05-01" "out"
          (processFileVideo (fun _ => false) (fun _ => 3) "2024-05-01" "out" wit2St
            "q/b.mp4") "p/a.mp4").records "p/a.mp4" = some wit2RecA)) :=
  ⟨(claim_C2 (fun _ => false) (fun _ => 3) "2024-05-01" "out").1 wit2St "p/a.mp4",
    (claim_C2 (fun _ => false) (fun _ => 3) "2024-05-01" "out").2 wit2St "p/a.mp4" "q/b.mp4"
      wit2RecA wit2RecB (by decide) (by decide) (by decide) (by decide) (by decide) rfl rfl⟩

/-- C10: a duplicate-hash skip is a pure counter update: the resulting state
equals the old state with only the duplicate counter and the space-saved
total raised, so the record of the skipped file - its copied flag and
filename included - and the filesystem are untouched; and over any store in
which some copied record carries the hash of a looked-up record, the start
state of every later run repeats the same skip and re-adds the size. -/
theorem claim_C10 (fail : String → Bool) (size : String → Nat) (today d : String) :
    (∀ (st : OrgState) (f : String) (r : FileMetadata),
      lookupRecord st.records f = some r →
      st.copiedHashes.contains r.hash = true →
      processFileVideo fail size today d st f =
        { st with
          duplicateCount := st.duplicateCount + 1,
          spaceSaved := st.spaceSaved + size f }) ∧
    (∀ (rs : List FileMetadata) (fs0 : List String) (f : String) (r rc : FileMetadata),
      lookupRecord rs f = some r → rc ∈ rs → rc.copied = true → rc.hash = r.hash →
      processFileVideo fail size today d (initVideoState rs fs0) f =
        { initVideoState rs fs0 with
          duplicateCount := (initVideoState rs fs0).duplicateCount + 1,
          spaceSaved := (initVideoState rs fs0).spaceSaved + size f }) := by
  constructor
  · intro st f r hl hc
    exact processFileVideo_dup fail size today d st f r hl hc
  · intro rs fs0 f r rc hl hmem hcop hh
    have hch := initVideoState_hash_mem fs0 hmem hcop
    rw [hh] at hch
    exact processFileVideo_dup fail size today d (initVideoState rs fs0) f r hl hch

/-- C10 witness: the concrete store with a copied and an un-copied record
sharing a hash. -/
theorem claim_C10_witness :
    processFileVideo (fun _ => false) (fun _ => 5) "2024-05-01" "out" wit10St "q/b.mp4" =
      { wit10St with
        duplicateCount := wit10St.duplicateCount + 1,
        spaceSaved := wit10St.spaceSaved + 5 } :=
  (claim_C10 (fun _ => false) (fun _ => 5) "2024-05-01" "out").2 wit10Recs [] "q/b.mp4"
    wit10RecB wit10RecA (by decide) (by decide) (by decide) (by decide)

/-- C3 counterexample: the hash-aware video organizer resolves a conflict
with a single underscore-copy fallback, not an incrementing suffix: over
three files sharing a destination base name, the third rename targets the
same copy-path as the second, so the list of written destination paths has
a repeat - the second file is silently overwritten by the third. -/
theorem claim_C3_counterexample :
    ¬ (runVideoBatch (fun _ => false) (fun _ => 0) "2024-05-01" "out"
        cex3St cex3Files).moved.Nodup := by
  decide

/-- C3 amended: in the incrementing-suffix variants the policy is
collision-free: getUniqueDestPath of sorta.ts always returns a path that
does not yet exist, and a batch of the image organizer over pairwise
distinct transferable files writes pairwise distinct destination paths, one
per file, none of which existed before the batch; the underscore-copy
fallback of the hash-aware video organizer can overwrite when three or more
files share a destination base name. -/
theorem claim_C3 :
    (∀ (fsys : List String) (destPath baseName ext : String),
      getUniqueDestPath fsys destPath baseName ext ∉ fsys) ∧
    (∀ (d : String) (files : List String) (st : OrgState),
      files.Nodup →
      (∀ f ∈ files, transferableB st f = true) →
      st.moved = [] →
      (runImageOk d st files).moved.Nodup ∧
        (runImageOk d st files).moved.length = files.length ∧
        (∀ p ∈ (runImageOk d st files).moved, p ∉ st.fsys)) := by
  constructor
  · intro fsys destPath baseName ext
    obtain ⟨n, _, _, _, hfree⟩ := getUniqueDestPath_spec fsys destPath baseName ext
    exact hfree
  · intro d files st hnd hall hmv
    obtain ⟨nm, hmeq, hlen, hnodup, hnotin, _, _⟩ :=
      runImageOk_spec d files st hnd hall
        (by rw [hmv]; exact List.nodup_nil)
        (by rw [hmv]; intro p hp; exact absurd hp (List.not_mem_nil p))
    refine ⟨hnodup, ?_, ?_⟩
    · rw [hmeq, hmv, List.nil_append]
      exact hlen
    · intro p hp
      rw [hmeq, hmv, List.nil_append] at hp
      exact hnotin p hp

/-- C3 witness: two concrete image files with one destination base name get
two distinct fresh destination paths. -/
theorem claim_C3_witness :
    (runImageOk "out" wit3St wit3Files).moved.Nodup ∧
      (runImageOk "out" wit3St wit3Files).moved.length = wit3Files.length ∧
      (∀ p ∈ (runImageOk "out" wit3St wit3Files).moved, p ∉ wit3St.fsys) :=
  claim_C3.2 "out" wit3Files wit3St (by decide) (by decide) rfl

/-- C4 counterexample: the image organizer has no try-catch around its copy:
with two transferable files of which the first copy throws, the whole batch
ends with the exception and the second file is never processed - a
single-file failure aborts the batch there. -/
theorem claim_C4_counterexample :
    runImage cex4Fail "out" cex4St cex4Files = Except.error () := by
  rfl

/-- C4 amended: the hash-aware video organizer behaves as claimed: when the
rename of one file throws, the metadata array, the copied-hash set, the
processed counter and the move log are unchanged - the copied flag of the
record in particular stays as it was - and the batch loop continues with the
remaining files; in the image organizer a copy failure instead aborts the
rest of the batch. -/
theorem claim_C4 (fail : String → Bool) (size : String → Nat) (today d : String) :
    (∀ (st : OrgState) (f : String), fail f = true →
      (processFileVideo fail size today d st f).records = st.records ∧
        (processFileVideo fail size today d st f).copiedHashes = st.copiedHashes ∧
        (processFileVideo fail size today d st f).processedFiles = st.processedFiles ∧
        (processFileVideo fail size today d st f).moved = st.moved) ∧
    (∀ (st : OrgState) (f : String) (rest : List String),
      List.foldl (processFileVideo fail size today d) st (f :: rest) =
        List.foldl (processFileVideo fail size today d)
          (processFileVideo fail size today d st f) rest) := by
  constructor
  · intro st f hf
    obtain ⟨h1, h2, h3, h4, _⟩ := processFileVideo_fail fail size today d st f hf
    exact ⟨h1, h2, h3, h4⟩
  · intro st f rest
    rfl

/-- C4 witness: a concrete always-failing rename leaves records, hashes,
counters and the move log unchanged and the loop steps on. -/
theorem claim_C4_witness :
    ((processFileVideo (fun _ => true) (fun _ => 3) "2024-05-01" "out" wit2St
        "p/a.mp4").records = wit2St.records ∧
      (processFileVideo (fun _ => true) (fun _ => 3) "2024-05-01" "out" wit2St
        "p/a.mp4").copiedHashes = wit2St.copiedHashes ∧
      (processFileVideo (fun _ => true) (fun _ => 3) "2024-05-01" "out" wit2St
        "p/a.mp4").processedFiles = wit2St.processedFiles ∧
      (processFileVideo (fun _ => true) (fun _ => 3) "2024-05-01" "out" wit2St
        "p/a.mp4").moved = wit2St.moved) ∧
    List.foldl (processFileVideo (fun _ => true) (fun _ => 3) "2024-05-01" "out") wit2St
        ["p/a.mp4", "q/b.mp4"] =
      List.foldl (processFileVideo (fun _ => true) (fun _ => 3) "2024-05-01" "out")
        (processFileVideo (fun _ => true) (fun _ => 3) "2024-05-01" "out" wit2St "p/a.mp4")
        ["q/b.mp4"] :=
  ⟨(claim_C4 (fun _ => true) (fun _ => 3) "2024-05-01" "out").1 wit2St "p/a.mp4" rfl,
    (claim_C4 (fun _ => true) (fun _ => 3) "2024-05-01" "out").2 wit2St "p/a.mp4" ["q/b.mp4"]⟩

/-- C5 counterexample: the collector of sorta.ts, cited by the claim, has no
hidden-name check: the file inside the hidden trash directory of the
scenario tree appears in its output. -/
theorem claim_C5_counterexample :
    "a/.trash/photo2.jpg" ∈ collectFilesSorta "a" scenarioEntries := by
  simp only [scenarioEntries, collectFilesSorta]
  decide

/-- C5 amended: the collectors of part_000, create-metadata.ts and
sorta-vids.ts exclude hidden entries at every nesting depth: their output is
exactly the joined visible name chains of the tree, and no visible chain
contains a hidden name - so no hidden file is collected and no hidden
directory is descended into; the collector of sorta.ts does not filter
hidden entries at all. -/
theorem claim_C5 (root : String) (es : List FsEntry) :
    collectFilesHidden root es = (visibleFiles es).map (joinChain root) ∧
      ∀ ns ∈ visibleFiles es, ∀ n ∈ ns, hiddenName n = false :=
  ⟨collectFilesHidden_eq root es, visibleFiles_no_hidden es⟩

/-- C5 witness: the characterization at the concrete scenario tree. -/
theorem claim_C5_witness :
    collectFilesHidden "a" scenarioEntries =
        (visibleFiles scenarioEntries).map (joinChain "a") ∧
      ∀ ns ∈ visibleFiles scenarioEntries, ∀ n ∈ ns, hiddenName n = false :=
  claim_C5 "a" scenarioEntries

/-- C6 counterexample: the claim places the scenario result at
out/images/jpg/2022-03-01_photo1.jpg, but the image organizer joins the
literal segment image, not images: the claimed path is absent from the
final filesystem, which holds out/image/jpg/2022-03-01_photo1.jpg and the
category directory. -/
theorem claim_C6_counterexample :
    "out/images/jpg/2022-03-01_photo1.jpg" ∉
        (runImageOk "out" scenarioState (collectFilesHidden "a" scenarioEntries)).fsys ∧
      (runImageOk "out" scenarioState (collectFilesHidden "a" scenarioEntries)).fsys =
        ["out/image/jpg/2022-03-01_photo1.jpg", "out/image/jpg"] := by
  have hcf : collectFilesHidden "a" scenarioEntries = ["a/photo1.jpg"] := by
    simp only [scenarioEntries, collectFilesHidden]
    decide
  rw [hcf]
  constructor
  · decide
  · decide

/-- C6 amended: for a transferable image file whose plain dated candidate is
free, the organizer writes exactly the category directory - destination,
then the literal segment image, then the extension - joined with the file
name date-underscore-basename-extension, marks the record copied with that
file name, and raises the processed counter; on the concrete scenario the
run writes exactly out/image/jpg/2022-03-01_photo1.jpg with a processed
count of one.  The spec names the middle segment images where the code has
image. -/
theorem claim_C6 :
    (∀ (d : String) (st : OrgState) (f : String) (r : FileMetadata),
      imageExtensions.contains (strLower (extname f)) = true →
      lookupRecord st.records f = some r →
      r.copied = false →
      joinP (imageTypeDir d f)
          (formatTimestampImages r.timestamp ++ "_" ++ basenameStrip f (strLower (extname f)) ++
            strLower (extname f)) ∉ List.insert (imageTypeDir d f) st.fsys →
      processFileImageOk d st f =
        { st with
          fsys := List.insert
            (joinP (imageTypeDir d f)
              (formatTimestampImages r.timestamp ++ "_" ++
                basenameStrip f (strLower (extname f)) ++ strLower (extname f)))
            (List.insert (imageTypeDir d f) st.fsys),
          records := updateLastRecord st.records f
            (fun x => { x with
              copied := true,
              filename := formatTimestampImages r.timestamp ++ "_" ++
                basenameStrip f (strLower (extname f)) ++ strLower (extname f) }),
          processedFiles := st.processedFiles + 1,
          moved := st.moved ++ [joinP (imageTypeDir d f)
            (formatTimestampImages r.timestamp ++ "_" ++
              basenameStrip f (strLower (extname f)) ++ strLower (extname f))] }) ∧
    ((runImageOk "out" scenarioState (collectFilesHidden "a" scenarioEntries)).moved =
        ["out/image/jpg/2022-03-01_photo1.jpg"] ∧
      (runImageOk "out" scenarioState (collectFilesHidden "a" scenarioEntries)).processedFiles =
        1) := by
  constructor
  · intro d st f r hext hl hc hfree
    obtain ⟨hpick, hname⟩ := imagePick_zero d st f r hfree
    obtain ⟨hstep, _⟩ := processFileImageOk_transfer d st f r hext hl hc
    rw [hstep, hpick, hname]
    rfl
  · have hcf : collectFilesHidden "a" scenarioEntries = ["a/photo1.jpg"] := by
      simp only [scenarioEntries, collectFilesHidden]
      decide
    rw [hcf]
    constructor
    · decide
    · decide

/-- C6 witness: the destination equation at the concrete scenario record. -/
theorem claim_C6_witness :
    processFileImageOk "out" scenarioState "a/photo1.jpg" =
      { scenarioState with
        fsys := List.insert
          (joinP (imageTypeDir "out" "a/photo1.jpg")
            (formatTimestampImages scenarioRecord.timestamp ++ "_" ++
              basenameStrip "a/photo1.jpg" (strLower (extname "a/photo1.jpg")) ++
              strLower (extname "a/photo1.jpg")))
          (List.insert (imageTypeDir "out" "a/photo1.jpg") scenarioState.fsys),
        records := updateLastRecord scenarioState.records "a/photo1.jpg"
          (fun x => { x with
            copied := true,
            filename := formatTimestampImages scenarioRecord.timestamp ++ "_" ++
              basenameStrip "a/photo1.jpg" (strLower (extname "a/photo1.jpg")) ++
              strLower (extname "a/photo1.jpg") }),
        processedFiles := scenarioState.processedFiles + 1,
        moved := scenarioState.moved ++ [joinP (imageTypeDir "out" "a/photo1.jpg")
          (formatTimestampImages scenarioRecord.timestamp ++ "_" ++
            basenameStrip "a/photo1.jpg" (strLower (extname "a/photo1.jpg")) ++
            strLower (extname "a/photo1.jpg"))] } :=
  claim_C6.1 "out" scenarioState "a/photo1.jpg" scenarioRecord (by decide) (by decide)
    (by decide) (by decide)

/-- C7: the suffix loop terminates on every finite filesystem - within a
number of existence tests bounded by the filesystem size it reaches a free
candidate and returns it - and the claimed bounded retry cap with a Skip
fallback does not exist in the code: the resolver always returns a fresh
path. -/
theorem claim_C7 (fsys : List String) (destPath baseName ext : String) :
    ∃ n, n < fsys.length + 2 ∧
      findFree (fun s => fsys.contains s) (uniqueCand destPath baseName ext)
          (fsys.length + 2) 0 = some n ∧
      getUniqueDestPath fsys destPath baseName ext = uniqueCand destPath baseName ext n ∧
      getUniqueDestPath fsys destPath baseName ext ∉ fsys :=
  getUniqueDestPath_spec fsys destPath baseName ext

/-- C7 counterexample: with the plain name and the first twelve suffixed
names all occupied, the resolver of sorta.ts still returns the fourteenth
candidate as a path instead of capping retries and falling back to Skip;
through handleDuplicateAction the suffix decision yields a path and never
the Skip outcome. -/
theorem claim_C7_counterexample :
    getUniqueDestPath cex7Taken "d/b.jpg" "b" ".jpg" = "d/b(13).jpg" ∧
      handleDuplicateAction cex7Taken DupAction.addSuffix "d/b.jpg" "b" ".jpg" =
        some "d/b(13).jpg" := by
  constructor
  · decide
  · decide

/-- C8 counterexample: the formatTimestamp shared by the image organizer and
sorta-vids.ts has no sentinel check: it maps the sentinel instant to the
date of the sentinel itself, 1980-01-01, whatever the processing date is. -/
theorem claim_C8_counterexample :
    formatTimestampImages sentinelTimestamp = "1980-01-01" := by
  decide

/-- C8 amended: only the hash-aware video organizer substitutes the
sentinel: its formatTimestamp returns the current processing date on the
sentinel instant, and the destination file name it uses for a
sentinel-record transfer is built from that date; the formatTimestamp of
the image organizer and of sorta-vids.ts does not substitute. -/
theorem claim_C8 :
    (∀ today : String, formatTimestampVideos today sentinelTimestamp = today) ∧
    (∀ (fail : String → Bool) (size : String → Nat) (today d : String) (st : OrgState)
        (f : String) (r : FileMetadata),
      lookupRecord st.records f = some r →
      r.timestamp = sentinelTimestamp →
      st.copiedHashes.contains r.hash = false →
      fail f = false →
      ∃ name,
        (processFileVideo fail size today d st f).moved =
          st.moved ++ [joinP (videoTypeDir d f) name] ∧
        (name = today ++ "_" ++ basenameStrip f (strLower (extname f)) ++
            strLower (extname f) ∨
          name = today ++ "_" ++ basenameStrip f (strLower (extname f)) ++ "_copy" ++
            strLower (extname f))) := by
  constructor
  · intro today
    simp [formatTimestampVideos]
  · intro fail size today d st f r hl hts hc hf
    obtain ⟨name, hstep, hor⟩ := processFileVideo_transfer fail size today d st f r hl hc hf
    have hft : formatTimestampVideos today r.timestamp = today := by
      rw [hts]
      simp [formatTimestampVideos]
    refine ⟨name, ?_, ?_⟩
    · rw [hstep]
    · rcases hor with h | h
      · left
        rw [h, hft]
      · right
        rw [h, hft]

/-- C8 witness: the sentinel substitution at a concrete record and date. -/
theorem claim_C8_witness :
    formatTimestampVideos "2024-05-01" sentinelTimestamp = "2024-05-01" ∧
      ∃ name,
        (processFileVideo (fun _ => false) (fun _ => 0) "2024-05-01" "out" wit8St
            "p/v.mp4").moved =
          wit8St.moved ++ [joinP (videoTypeDir "out" "p/v.mp4") name] ∧
        (name = "2024-05-01" ++ "_" ++ basenameStrip "p/v.mp4" (strLower (extname "p/v.mp4")) ++
            strLower (extname "p/v.mp4") ∨
          name = "2024-05-01" ++ "_" ++ basenameStrip "p/v.mp4" (strLower (extname "p/v.mp4")) ++
            "_copy" ++ strLower (extname "p/v.mp4")) :=
  ⟨claim_C8.1 "2024-05-01",
    claim_C8.2 (fun _ => false) (fun _ => 0) "2024-05-01" "out" wit8St "p/v.mp4" wit8Rec
      (by decide) (by decide) (by decide) rfl⟩

/-- C9: the metadata-generation pass records copied false for every file it
collects and builds the output document from an empty collection: the
result does not depend on the pre-existing document at the output path, so
every previously recorded copied flag is lost when the document is
rewritten. -/
theorem claim_C9 (oldDoc : List ScanRecord) (stamp : String → String)
    (hashFn : String → Option String) (root : String) (es : List FsEntry) :
    (∀ r ∈ runMetadataPass oldDoc stamp hashFn root es, r.copied = false) ∧
      runMetadataPass oldDoc stamp hashFn root es = runMetadataPass [] stamp hashFn root es :=
  ⟨getFileMetadata_copied_false stamp hashFn root es, rfl⟩

/-- C9 witness: the regeneration at the concrete scenario tree over a
document that had a copied flag set. -/
theorem claim_C9_witness :
    (∀ r ∈ runMetadataPass wit9Old wit9Stamp wit9Hash "a" scenarioEntries, r.copied = false) ∧
      runMetadataPass wit9Old wit9Stamp wit9Hash "a" scenarioEntries =
        runMetadataPass [] wit9Stamp wit9Hash "a" scenarioEntries :=
  claim_C9 wit9Old wit9Stamp wit9Hash "a" scenarioEntries

end Sorta
